import Mathlib

/-!
Verification development for `scrape_listings.py` (Kojamo listing-count scraper).

The Python source is shallowly embedded below.  Page text is modelled as
`List Char` (the output of the normalizer `soup.get_text(" ", strip=True)` is an
input here, since fetching and HTML parsing are external I/O).  The three
regular-expression scans inside `find_candidate_counts` are embedded by
specialised matchers that implement the leftmost, non-overlapping `finditer`
scan together with the backtracking preference order of Python's regex engine
for the concrete patterns of the source:

  RE_GROUPED_INT = \d{1,3}(?:[  ]?\d{3})+
  RE_PLAIN_INT   = \d{3,}
  rx_keywords    = (GROUPED|PLAIN)\s*(?:kw1|...|kw10)      (IGNORECASE)
  rx_slash_total = /\s*(GROUPED|PLAIN)\s*(?:kw1|...|kw10)? (IGNORECASE)
  rx_all         = (GROUPED|PLAIN)

`\d` is modelled as the ASCII digits (the texts at issue contain only those),
`\s` as Python's whitespace set for `str`, and IGNORECASE by ASCII case folding.
-/

/-- ASCII decimal digit, the `\d` of the source's patterns on the texts at issue. -/
def isDigitCh (c : Char) : Bool := 48 ≤ c.toNat && c.toNat ≤ 57

/-- The thousands separator class `[  ]` of RE_GROUPED_INT. -/
def isSepCh (c : Char) : Bool := c.toNat = 32 || c.toNat = 160

/-- Python's `\s` on `str`: characters for which `str.isspace()` holds. -/
def isSpaceCh (c : Char) : Bool :=
  c.toNat = 32 || (9 ≤ c.toNat && c.toNat ≤ 13) || (28 ≤ c.toNat && c.toNat ≤ 31) ||
  c.toNat = 133 || c.toNat = 160 || c.toNat = 5760 ||
  (8192 ≤ c.toNat && c.toNat ≤ 8202) || c.toNat = 8232 || c.toNat = 8233 ||
  c.toNat = 8239 || c.toNat = 8287 || c.toNat = 12288

/-- COUNT_KEYWORDS of the source, in list order (the regex alternation order). -/
def COUNT_KEYWORDS : List (List Char) :=
  ["hakutulosta", "hakutulokset", "ilmoitusta", "ilmoitukset", "asuntoa",
   "asuntoja", "kohdetta", "kohteet", "yhteensä", "kaikkiaan"].map String.toList

/-- Length of the maximal run of digits at the head of the text. -/
def digitRun : List Char → Nat
  | [] => 0
  | c :: cs => if isDigitCh c then digitRun cs + 1 else 0

/-- Length of the maximal run of `\s` characters at the head of the text. -/
def spaceRun : List Char → Nat
  | [] => 0
  | c :: cs => if isSpaceCh c then spaceRun cs + 1 else 0

/-- Consumption lengths of `\d{1,3}` at the head, in the engine's greedy
backtracking order (3 digits first, then 2, then 1, as available). -/
def leadLens (cs : List Char) : List Nat :=
  (List.range (min (digitRun cs) 3)).map (fun i => min (digitRun cs) 3 - i)

/-- Consumption length of one group `(?:[  ]?\d{3})` at the head.  The
optional separator and the digit-start cases are mutually exclusive, so at most
one consumption length exists. -/
def groupLen (cs : List Char) : Option Nat :=
  match cs with
  | [] => none
  | c :: _ =>
    if isSepCh c then (if 3 ≤ digitRun (cs.drop 1) then some 4 else none)
    else (if 3 ≤ digitRun cs then some 3 else none)

/-- Consumption lengths of `(?:[  ]?\d{3})+` at the head, in greedy
backtracking order (maximal number of groups first).  Structural fuel; the
callers pass the text length, which suffices since each group consumes at
least three characters. -/
def plusLensAux : Nat → List Char → List Nat
  | 0, _ => []
  | fuel + 1, cs =>
    match groupLen cs with
    | none => []
    | some g => (plusLensAux fuel (cs.drop g)).map (· + g) ++ [g]

def plusLens (cs : List Char) : List Nat := plusLensAux cs.length cs

/-- Consumption lengths of RE_GROUPED_INT at the head, in the engine's
backtracking order (lead length major, group count minor, both descending). -/
def groupedLens (cs : List Char) : List Nat :=
  (leadLens cs).flatMap (fun l => (plusLens (cs.drop l)).map (· + l))

/-- Consumption lengths of RE_PLAIN_INT (`\d{3,}`) at the head, greedy order. -/
def plainLens (cs : List Char) : List Nat :=
  if 3 ≤ digitRun cs then (List.range (digitRun cs - 2)).map (fun i => digitRun cs - i)
  else []

/-- Consumption lengths of the alternation `(GROUPED|PLAIN)` at the head, in
the engine's order: every grouped alternative before every plain one. -/
def numberLens (cs : List Char) : List Nat := groupedLens cs ++ plainLens cs

/-- Consumption lengths of `\s*` at the head, greedy order (longest first). -/
def wsLens (cs : List Char) : List Nat :=
  (List.range (spaceRun cs + 1)).map (fun i => spaceRun cs - i)

/-- IGNORECASE single-character match of a (lowercase) pattern character
against a text character, by ASCII case folding. -/
def charMatchCI (k c : Char) : Bool := k == c || k.toLower == c.toLower

/-- Does the keyword match (case-insensitively) at the head of the text? -/
def matchKw : List Char → List Char → Bool
  | [], _ => true
  | _ :: _, [] => false
  | k :: ks, c :: cs => charMatchCI k c && matchKw ks cs

/-- The keyword alternation `(?:hakutulosta|...|kaikkiaan)` at the head:
first keyword (in list order) that matches, with its consumed length. -/
def keywordAt (cs : List Char) : Option Nat :=
  COUNT_KEYWORDS.findSome? (fun kw => if matchKw kw cs then some kw.length else none)

/-- Model of `_clean_to_int` of the source: strip all non-digits and parse base 10;
`None` when no digit remains. -/
def digitsToNat (ds : List Char) : Nat := ds.foldl (fun a c => 10 * a + (c.toNat - 48)) 0

def clean_to_int (s : List Char) : Option Nat :=
  let ds := s.filter isDigitCh
  if ds.isEmpty then none else some (digitsToNat ds)

/-- Match attempt of rx_keywords at the head: the first number alternative (in
backtracking order) after which `\s*` and a keyword succeed.  Returns the
length of capture group 1 and the total match length. -/
def kwMatchAt (cs : List Char) : Option (Nat × Nat) :=
  (numberLens cs).findSome? (fun n =>
    ((wsLens (cs.drop n)).findSome? (fun w =>
      (keywordAt ((cs.drop n).drop w)).map (fun k => n + w + k))).map (fun t => (n, t)))

/-- Match attempt of rx_slash_total at the head.  Returns the start offset of
capture group 1, its length, and the total match length.  The trailing
`\s*(?:kw)?` always succeeds, so the first number alternative wins and the
optional keyword is included exactly when it matches after the maximal
whitespace run. -/
def slashMatchAt (cs : List Char) : Option (Nat × Nat × Nat) :=
  match cs with
  | [] => none
  | c :: rest =>
    if c = '/' then
      (wsLens rest).findSome? (fun w1 =>
        ((numberLens (rest.drop w1)).head?).map (fun n =>
          let w2 := spaceRun ((rest.drop w1).drop n)
          let k := (keywordAt (((rest.drop w1).drop n).drop w2)).getD 0
          (1 + w1, n, 1 + w1 + n + w2 + k)))
    else none

/-- The `finditer` scan of rx_keywords: stage 1 of `find_candidate_counts`.
Non-overlapping leftmost matches; each match appends `_clean_to_int(group 1)`
when it is not `None`.  Structural fuel (one unit per consumed character);
the caller passes the text length. -/
def kwScanAux : Nat → List Char → List Nat
  | 0, _ => []
  | _ + 1, [] => []
  | fuel + 1, c :: rest =>
    match kwMatchAt (c :: rest) with
    | some (n, total) =>
      (clean_to_int ((c :: rest).take n)).toList ++ kwScanAux fuel ((c :: rest).drop total)
    | none => kwScanAux fuel rest

def kwScan (cs : List Char) : List Nat := kwScanAux cs.length cs

/-- The `finditer` scan of rx_slash_total: stage 2 of `find_candidate_counts`. -/
def slashScanAux : Nat → List Char → List Nat
  | 0, _ => []
  | _ + 1, [] => []
  | fuel + 1, c :: rest =>
    match slashMatchAt (c :: rest) with
    | some (st, n, total) =>
      (clean_to_int (((c :: rest).drop st).take n)).toList ++ slashScanAux fuel ((c :: rest).drop total)
    | none => slashScanAux fuel rest

def slashScan (cs : List Char) : List Nat := slashScanAux cs.length cs

/-- The `finditer` scan of rx_all: stage 3 of `find_candidate_counts`. -/
def bareScanAux : Nat → List Char → List Nat
  | 0, _ => []
  | _ + 1, [] => []
  | fuel + 1, c :: rest =>
    match (numberLens (c :: rest)).head? with
    | some n =>
      (clean_to_int ((c :: rest).take n)).toList ++ bareScanAux fuel ((c :: rest).drop n)
    | none => bareScanAux fuel rest

def bareScan (cs : List Char) : List Nat := bareScanAux cs.length cs

/-- Model of `find_candidate_counts` of the source: the one candidate list, built by
appending the results of the three scans in program order. -/
def find_candidate_counts (text : List Char) : List Nat :=
  kwScan text ++ slashScan text ++ bareScan text

/-- Model of `choose_reasonable` of the source: filter to `[min_ok, max_ok]` and return
`max` of the survivors (`None` when none survive).  Python's `max` on a
non-empty list is the left fold of binary `max` from its first element. -/
def choose_reasonable (cands : List Nat) (min_ok max_ok : Nat) : Option Nat :=
  match cands.filter (fun x => min_ok ≤ x && x ≤ max_ok) with
  | [] => none
  | x :: xs => some (xs.foldl max x)

/-- Model of `fetch_oikotie_count`, with the fetch replaced by the fetched page text;
`none` models the RuntimeError raise. -/
def fetch_oikotie_count (text : List Char) : Option Nat :=
  choose_reasonable (find_candidate_counts text) 500 300000

/-- Model of `fetch_lumo_count`, with the fetch replaced by the page text and the
h1/h2 headings text (the source joins the headings with spaces and retries the
same candidate search on failure of the full-text search). -/
def fetch_lumo_count (text headings : List Char) : Option Nat :=
  match choose_reasonable (find_candidate_counts text) 50 20000 with
  | some v => some v
  | none => choose_reasonable (find_candidate_counts headings) 50 20000

/-! Ledger model.  A CSV file's parsed content is a list of rows (lists of
fields); `none` models an absent file.  The byte content of a file written by
the program is `renderCSV` of its rows (Python's `csv.writer` with the default
dialect: comma delimiter, minimal quoting, CRLF line terminator). -/

abbrev Row := List String

def headerRow : Row := ["date", "oikotie", "lumo"]

/-- Model of `init_csv`: create the file with the header row when absent,
leave an existing file untouched. -/
def init_csv : Option (List Row) → List Row
  | none => [headerRow]
  | some rows => rows

/-- Model of `read_last_row` on an existing file: skip the first row (the
header position) and return the last remaining row, if any. -/
def read_last_row (rows : List Row) : Option Row := (rows.drop 1).getLast?

def newRow (today : String) (o l : Nat) : Row := [today, toString o, toString l]

/-- The ledger write of `main`: when the last data row exists, is non-empty
(Python truthiness of `last`) and its first field equals today's date, the
whole file is rewritten with that last row replaced; otherwise the new row is
appended. -/
def runLedger (rows : List Row) (today : String) (o l : Nat) : List Row :=
  match read_last_row rows with
  | some last =>
    if last ≠ [] ∧ last.head? = some today
    then rows.dropLast ++ [newRow today o l]
    else rows ++ [newRow today o l]
  | none => rows ++ [newRow today o l]

/-- Model of `main` for one run.  The network is an input: `fetchO` is the
Oikotie page text when its fetch succeeds (`none` models fetch exhaustion) and
`fetchL` is the Lumo page text paired with its h1/h2 headings text.  The
result is the final file state paired with the printed counts on success
(`none` models the propagated exception and non-zero exit).  `init_csv` runs
first, then the two fetch-and-extract steps in order (the politeness sleep has
no state effect), and the ledger is written only when both succeed. -/
def mainRun (file0 : Option (List Row)) (today : String)
    (fetchO : Option (List Char)) (fetchL : Option (List Char × List Char)) :
    Option (List Row) × Option (Nat × Nat) :=
  let rows := init_csv file0
  match fetchO with
  | none => (some rows, none)
  | some textO =>
    match fetch_oikotie_count textO with
    | none => (some rows, none)
    | some o =>
      match fetchL with
      | none => (some rows, none)
      | some tl =>
        match fetch_lumo_count tl.1 tl.2 with
        | none => (some rows, none)
        | some l => (some (runLedger rows today o l), some (o, l))

/-- Does `csv.writer` (minimal quoting) quote this field? -/
def needsQuote (f : List Char) : Bool :=
  f.any (fun c => c == ',' || c == '"' || c == '\r' || c == '\n')

def renderField (f : List Char) : List Char :=
  if needsQuote f then
    '"' :: (f.flatMap (fun c => if c == '"' then ['"', '"'] else [c])) ++ ['"']
  else f

/-- One CSV line as written by `csv.writer`: comma-joined fields, CRLF. -/
def renderLine (r : Row) : List Char :=
  (List.intercalate [','] (r.map (fun f => renderField f.toList))) ++ ['\r', '\n']

/-- Byte content of a file holding the given rows in the writer's form. -/
def renderCSV (rows : List Row) : List Char := rows.flatMap renderLine

/-! Fetch model.  `fetch_soup` loops over `range(tries)`; each iteration
attempts the transport, returns the page on success, and otherwise records the
exception and sleeps the fixed delay unless the attempt was the last.  The
transport (network) is an input `T`; the trace records the attempts made and
the sleeps between them. -/

inductive FetchEv where
  | att (i : Nat)
  | sleepEv
deriving DecidableEq

def countAtt : List FetchEv → Nat
  | [] => 0
  | FetchEv.att _ :: tr => countAtt tr + 1
  | FetchEv.sleepEv :: tr => countAtt tr

def countSleep : List FetchEv → Nat
  | [] => 0
  | FetchEv.att _ :: tr => countSleep tr
  | FetchEv.sleepEv :: tr => countSleep tr + 1

/-- The RuntimeError message text raised after exhausting the attempts:
an f-string interpolating the URL and the last exception. -/
def mkFetchErr (url : List Char) (last : Option String) : List Char :=
  "Sivun haku epäonnistui: ".toList ++ url ++ " (".toList ++
    (match last with | some e => e.toList | none => "None".toList) ++ ")".toList

def fetchLoop (T : Nat → Except String String) (url : List Char) :
    List Nat → Option String → List FetchEv × Except (List Char) String
  | [], last => ([], Except.error (mkFetchErr url last))
  | i :: rest, last =>
    match T i with
    | Except.ok page => ([FetchEv.att i], Except.ok page)
    | Except.error e =>
      (FetchEv.att i ::
        (if rest.isEmpty then (fetchLoop T url rest (some e)).1
         else FetchEv.sleepEv :: (fetchLoop T url rest (some e)).1),
       (fetchLoop T url rest (some e)).2)

/-- Model of `fetch_soup` (default `tries = 3`): the page on the first
successful attempt, else the RuntimeError after the last. -/
def fetch_soup (T : Nat → Except String String) (url : List Char) (tries : Nat := 3) :
    List FetchEv × Except (List Char) String :=
  fetchLoop T url (List.range tries) none

/-! Well-formed grouped-integer texts (claim C6): 1 to 3 leading digits
followed by one or more groups of exactly 3 digits, each group preceded by an
ordinary space or a non-breaking space. -/

def renderGroups (gs : List (Char × List Char)) : List Char :=
  gs.flatMap (fun p => p.1 :: p.2)

def renderGrouped (lead : List Char) (gs : List (Char × List Char)) : List Char :=
  lead ++ renderGroups gs

def wfGroup (p : Char × List Char) : Prop :=
  isSepCh p.1 = true ∧ p.2.length = 3 ∧ ∀ c ∈ p.2, isDigitCh c = true

/-! Helper lemmas about the fold that models Python's `max` on a list, and
about `choose_reasonable`. -/

theorem foldl_max_init_le (xs : List Nat) (b : Nat) : b ≤ xs.foldl max b := by
  induction xs generalizing b with
  | nil => exact le_refl b
  | cons z zs ih => exact le_trans (le_max_left b z) (ih (max b z))

theorem foldl_max_mem (xs : List Nat) (b : Nat) : xs.foldl max b = b ∨ xs.foldl max b ∈ xs := by
  induction xs generalizing b with
  | nil => exact Or.inl rfl
  | cons z zs ih =>
    rcases ih (max b z) with h | h
    · rcases max_choice b z with hm | hm
      · exact Or.inl (by rw [List.foldl_cons, h, hm])
      · exact Or.inr (by rw [List.foldl_cons, h, hm]; exact List.mem_cons_self z zs)
    · exact Or.inr (List.mem_cons_of_mem z h)

theorem le_foldl_max {xs : List Nat} {y : Nat} (b : Nat) (h : y ∈ xs) :
    y ≤ xs.foldl max b := by
  induction xs generalizing b with
  | nil => cases h
  | cons z zs ih =>
    rcases List.mem_cons.mp h with rfl | h
    · exact le_trans (le_max_right b y) (foldl_max_init_le zs (max b y))
    · exact ih (max b z) h

theorem choose_some_spec {cands : List Nat} {lo hi v : Nat}
    (h : choose_reasonable cands lo hi = some v) :
    v ∈ cands ∧ lo ≤ v ∧ v ≤ hi ∧ ∀ u ∈ cands, lo ≤ u → u ≤ hi → u ≤ v := by
  unfold choose_reasonable at h
  cases hf : cands.filter (fun x => lo ≤ x && x ≤ hi) with
  | nil => rw [hf] at h; exact absurd h (by simp)
  | cons x xs =>
    rw [hf] at h
    simp only [Option.some.injEq] at h
    have hvmem : v ∈ x :: xs := by
      rcases foldl_max_mem xs x with h0 | h0
      · rw [← h, h0]; exact List.mem_cons_self x xs
      · rw [← h]; exact List.mem_cons_of_mem x h0
    rw [← hf] at hvmem
    have hv := List.mem_filter.mp hvmem
    have hv2 := hv.2
    simp only [Bool.and_eq_true, decide_eq_true_eq] at hv2
    refine ⟨hv.1, hv2.1, hv2.2, ?_⟩
    intro u hu hlo hhi
    have humem : u ∈ x :: xs := by
      rw [← hf]
      exact List.mem_filter.mpr ⟨hu, by simp only [Bool.and_eq_true, decide_eq_true_eq]; exact ⟨hlo, hhi⟩⟩
    rw [← h]
    rcases List.mem_cons.mp humem with rfl | humem
    · exact foldl_max_init_le xs u
    · exact le_foldl_max x humem

theorem choose_some_of_mem {cands : List Nat} {lo hi v : Nat}
    (hmem : v ∈ cands) (hlo : lo ≤ v) (hhi : v ≤ hi) :
    ∃ w, choose_reasonable cands lo hi = some w := by
  unfold choose_reasonable
  cases hf : cands.filter (fun x => lo ≤ x && x ≤ hi) with
  | nil =>
    have : v ∈ cands.filter (fun x => lo ≤ x && x ≤ hi) :=
      List.mem_filter.mpr ⟨hmem, by simp only [Bool.and_eq_true, decide_eq_true_eq]; exact ⟨hlo, hhi⟩⟩
    rw [hf] at this
    cases this
  | cons x xs => exact ⟨xs.foldl max x, rfl⟩

theorem choose_none_of_out {cands : List Nat} {lo hi : Nat}
    (h : ∀ v ∈ cands, v < lo ∨ hi < v) :
    choose_reasonable cands lo hi = none := by
  unfold choose_reasonable
  have hf : cands.filter (fun x => lo ≤ x && x ≤ hi) = [] := by
    rw [List.filter_eq_nil_iff]
    intro a ha
    simp only [Bool.and_eq_true, decide_eq_true_eq, not_and_or, not_le]
    rcases h a ha with h1 | h1
    · exact Or.inl h1
    · exact Or.inr h1
  rw [hf]

/-- C1: counterexample.  On the page text "600 asuntoa 700" with Oikotie's
range [500, 300000], the keyword-adjacency scan yields exactly the in-range
candidate 600, yet the extracted count is 700: a larger bare in-range number
elsewhere on the page does change the result, so the claimed short-circuit
does not hold. -/
theorem C1_counterexample :
    kwScan ("600 asuntoa 700".toList) = [600]
    ∧ (500 ≤ 600 ∧ 600 ≤ 300000)
    ∧ fetch_oikotie_count ("600 asuntoa 700".toList) = some 700
    ∧ (700 : Nat) ≠ 600 := by decide

/-- C1 (amended): the ranker does not short-circuit.  `find_candidate_counts`
pools the keyword-adjacency, slash-total and bare scans into one candidate
list; whenever the keyword-adjacency scan yields an in-range candidate the
extraction succeeds, but the result is the maximum over ALL pooled in-range
candidates — so a larger bare in-range number elsewhere on the page does
change the result. -/
theorem C1_pooled_max (text : List Char) (lo hi : Nat)
    (h : ∃ v ∈ kwScan text, lo ≤ v ∧ v ≤ hi) :
    ∃ w, choose_reasonable (find_candidate_counts text) lo hi = some w
      ∧ w ∈ find_candidate_counts text ∧ lo ≤ w ∧ w ≤ hi
      ∧ ∀ u ∈ find_candidate_counts text, lo ≤ u → u ≤ hi → u ≤ w := by
  obtain ⟨v, hv, hlo, hhi⟩ := h
  have hvmem : v ∈ find_candidate_counts text := by
    unfold find_candidate_counts
    exact List.mem_append.mpr (Or.inl (List.mem_append.mpr (Or.inl hv)))
  obtain ⟨w, hw⟩ := choose_some_of_mem hvmem hlo hhi
  obtain ⟨h1, h2, h3, h4⟩ := choose_some_spec hw
  exact ⟨w, hw, h1, h2, h3, h4⟩

theorem C1_pooled_max_witness :
    ∃ w, choose_reasonable (find_candidate_counts ("600 asuntoa 700".toList)) 500 300000 = some w
      ∧ w ∈ find_candidate_counts ("600 asuntoa 700".toList) ∧ 500 ≤ w ∧ w ≤ 300000
      ∧ ∀ u ∈ find_candidate_counts ("600 asuntoa 700".toList), 500 ≤ u → u ≤ 300000 → u ≤ w :=
  C1_pooled_max ("600 asuntoa 700".toList) 500 300000 ⟨600, by decide, by decide, by decide⟩

/-- C2: counterexample.  A page text that contains the phrase
"Hakuehdoillasi löytyi 1 246 asuntoa" but also the larger in-range number
"9 999" yields 9999, not 1246 — the phrase is not trusted unconditionally
(there is no phrase-exact stage in the code). -/
theorem C2_counterexample :
    "Hakuehdoillasi löytyi 1 246 asuntoa".toList ++ " 9 999".toList
      = "Hakuehdoillasi löytyi 1 246 asuntoa 9 999".toList
    ∧ fetch_lumo_count ("Hakuehdoillasi löytyi 1 246 asuntoa 9 999".toList) [] = some 9999
    ∧ (9999 : Nat) ≠ 1246 := by decide

/-- C2 (amended): there is no phrase-exact stage.  For the Lumo source the
page text "Hakuehdoillasi löytyi 1 246 asuntoa" yields 1246 through the
generic keyword/bare candidate pool filtered to [50, 20000]; an additional
number outside that range (999 999) does not change the result, but an
additional in-range number larger than 1246 (9 999) makes the extraction
return that number instead. -/
theorem C2_no_phrase_stage :
    fetch_lumo_count ("Hakuehdoillasi löytyi 1 246 asuntoa".toList) [] = some 1246
    ∧ fetch_lumo_count ("Hakuehdoillasi löytyi 1 246 asuntoa 999 999".toList) [] = some 1246
    ∧ fetch_lumo_count ("Hakuehdoillasi löytyi 1 246 asuntoa 9 999".toList) [] = some 9999 := by
  decide

/-- C3: counterexample.  The spec's example text, whose only number is
"2024", does NOT cause extraction to fail: 2024 lies inside both sources'
ranges ([500, 300000] and [50, 20000]), so both extractions succeed with
2024. -/
theorem C3_counterexample :
    fetch_oikotie_count ("2024".toList) = some 2024
    ∧ fetch_lumo_count ("2024".toList) [] = some 2024 := by decide

/-- C3 (amended): for either source, a page text all of whose candidate
numbers lie outside that source's range (for Lumo, in the headings fallback
too) causes that extraction to return no count, and the run writes no data
row: the file after the failed run is exactly `init_csv` of the file before
it (unchanged whenever it existed).  The spec's example "2024" is wrong — it
is in range for both sources (see the counterexample); a genuinely
out-of-range text such as "400 000" fails for both. -/
theorem C3_out_of_range_fails (file0 : Option (List Row)) (today : String)
    (textO textL headsL : List Char) :
    ((∀ v ∈ find_candidate_counts textO, v < 500 ∨ 300000 < v) →
       fetch_oikotie_count textO = none
       ∧ mainRun file0 today (some textO) (some (textL, headsL)) = (some (init_csv file0), none))
    ∧ ((∀ v ∈ find_candidate_counts textL, v < 50 ∨ 20000 < v) →
       (∀ v ∈ find_candidate_counts headsL, v < 50 ∨ 20000 < v) →
       fetch_lumo_count textL headsL = none
       ∧ mainRun file0 today (some textO) (some (textL, headsL)) = (some (init_csv file0), none)) := by
  constructor
  · intro h
    have ho : fetch_oikotie_count textO = none := choose_none_of_out h
    refine ⟨ho, ?_⟩
    simp [mainRun, ho]
  · intro hL hH
    have hl : fetch_lumo_count textL headsL = none := by
      unfold fetch_lumo_count
      rw [choose_none_of_out hL, choose_none_of_out hH]
    refine ⟨hl, ?_⟩
    cases ho : fetch_oikotie_count textO with
    | none => simp [mainRun, ho]
    | some o => simp [mainRun, ho, hl]

theorem C3_out_of_range_fails_witness :
    fetch_oikotie_count ("400 000".toList) = none
    ∧ mainRun (some [headerRow, ["2025-01-01", "600", "700"]]) "2025-10-12"
        (some ("400 000".toList)) (some ("400 000".toList, []))
      = (some [headerRow, ["2025-01-01", "600", "700"]], none) := by
  have h := (C3_out_of_range_fails (some [headerRow, ["2025-01-01", "600", "700"]])
    "2025-10-12" ("400 000".toList) ("400 000".toList) []).1 (by decide)
  exact ⟨h.1, h.2⟩

/-- C4: counterexample.  A run whose first fetch fails, started with no
ledger file present, still changes the file: `init_csv` creates it with the
header row before any fetch, so the file contents after the failed run are
not identical to before it. -/
theorem C4_counterexample :
    mainRun none "2025-10-12" none none = (some [headerRow], none)
    ∧ (some [headerRow] : Option (List Row)) ≠ none := by decide

/-- C4 (amended): if the fetch or the extraction for either source fails, the
run writes no data row — the resulting file is exactly `init_csv` of the
initial state, hence unchanged whenever the ledger file already existed; when
it was absent, it has been created with only the header row (by `init_csv`,
which runs before the fetches). -/
theorem C4_abort_before_data_write (file0 : Option (List Row)) (today : String)
    (fetchO : Option (List Char)) (fetchL : Option (List Char × List Char))
    (h : (mainRun file0 today fetchO fetchL).2 = none) :
    (mainRun file0 today fetchO fetchL).1 = some (init_csv file0)
    ∧ ∀ rows, file0 = some rows → (mainRun file0 today fetchO fetchL).1 = some rows := by
  have h1 : (mainRun file0 today fetchO fetchL).1 = some (init_csv file0) := by
    cases fetchO with
    | none => rfl
    | some textO =>
      cases ho : fetch_oikotie_count textO with
      | none => simp [mainRun, ho]
      | some o =>
        cases fetchL with
        | none => simp [mainRun, ho]
        | some tl =>
          cases hl : fetch_lumo_count tl.1 tl.2 with
          | none => simp [mainRun, ho, hl]
          | some l =>
            exfalso
            simp [mainRun, ho, hl] at h
  refine ⟨h1, ?_⟩
  intro rows hrows
  rw [h1, hrows]
  rfl

theorem C4_abort_before_data_write_witness :
    (mainRun (some [headerRow, ["2025-01-01", "600", "700"]]) "2025-10-12" none none).1
      = some [headerRow, ["2025-01-01", "600", "700"]] :=
  (C4_abort_before_data_write (some [headerRow, ["2025-01-01", "600", "700"]])
    "2025-10-12" none none (by decide)).2 _ rfl

/-- C8: on the page text "Näytetään 1–24 / 12 345 asuntoa" with a source that
has no phrase template (Oikotie's range [500, 300000]), the slash-total scan
yields exactly 12345, the pagination indices 1 and 24 are never emitted as
candidates, the extracted count is 12345, and that count is already
determined by the keyword and slash stages alone (it does not rely on the
bare fallback). -/
theorem C8_slash_total :
    slashScan ("Näytetään 1–24 / 12 345 asuntoa".toList) = [12345]
    ∧ (1 : Nat) ∉ find_candidate_counts ("Näytetään 1–24 / 12 345 asuntoa".toList)
    ∧ (24 : Nat) ∉ find_candidate_counts ("Näytetään 1–24 / 12 345 asuntoa".toList)
    ∧ choose_reasonable (find_candidate_counts ("Näytetään 1–24 / 12 345 asuntoa".toList)) 500 300000
        = some 12345
    ∧ choose_reasonable (kwScan ("Näytetään 1–24 / 12 345 asuntoa".toList)
        ++ slashScan ("Näytetään 1–24 / 12 345 asuntoa".toList)) 500 300000 = some 12345 := by
  decide

/-- C9: whenever an extraction succeeds, the returned count lies within the
source's configured closed range — [500, 300000] for Oikotie and [50, 20000]
for Lumo — for every page text (and headings text); every path goes through
the range filter of `choose_reasonable`. -/
theorem C9_range_invariant :
    (∀ (text : List Char) (v : Nat),
       fetch_oikotie_count text = some v → 500 ≤ v ∧ v ≤ 300000)
    ∧ (∀ (text headings : List Char) (v : Nat),
       fetch_lumo_count text headings = some v → 50 ≤ v ∧ v ≤ 20000) := by
  constructor
  · intro text v h
    obtain ⟨_, h2, h3, _⟩ := choose_some_spec h
    exact ⟨h2, h3⟩
  · intro text headings v h
    unfold fetch_lumo_count at h
    cases h1 : choose_reasonable (find_candidate_counts text) 50 20000 with
    | none =>
      rw [h1] at h
      obtain ⟨_, h2, h3, _⟩ := choose_some_spec h
      exact ⟨h2, h3⟩
    | some w =>
      rw [h1] at h
      simp only [Option.some.injEq] at h
      obtain ⟨_, h2, h3, _⟩ := choose_some_spec h1
      rw [← h]
      exact ⟨h2, h3⟩

theorem C9_range_invariant_witness :
    (500 ≤ 600 ∧ 600 ≤ 300000) ∧ (50 ≤ 1246 ∧ 1246 ≤ 20000) :=
  ⟨C9_range_invariant.1 ("600 asuntoa".toList) 600 (by decide),
   C9_range_invariant.2 ("1 246 asuntoa".toList) [] 1246 (by decide)⟩

/-- Helper: the element produced by `getLast?` is a member of the list. -/
theorem mem_of_getLast? {α : Type} {l : List α} {a : α} (h : l.getLast? = some a) : a ∈ l := by
  have h2 := List.dropLast_append_getLast? a (Option.mem_def.mpr h)
  rw [← h2]
  exact List.mem_append_right _ (List.mem_singleton.mpr rfl)

/-- Helper: the overwrite branch of the ledger write. -/
theorem runLedger_overwrite {rows : List Row} {today : String} {last : Row} (o l : Nat)
    (h1 : read_last_row rows = some last) (h2 : last ≠ []) (h3 : last.head? = some today) :
    runLedger rows today o l = rows.dropLast ++ [newRow today o l] := by
  unfold runLedger
  rw [h1]
  exact if_pos ⟨h2, h3⟩

/-- Helper: the append branch of the ledger write. -/
theorem runLedger_append {rows : List Row} {today : String} (o l : Nat)
    (h : ∀ last, read_last_row rows = some last → last = [] ∨ last.head? ≠ some today) :
    runLedger rows today o l = rows ++ [newRow today o l] := by
  unfold runLedger
  cases hr : read_last_row rows with
  | none => rfl
  | some last =>
    rcases h last hr with rfl | hne
    · exact if_neg (fun hc => hc.1 rfl)
    · exact if_neg (fun hc => hne hc.2)

/-- Helper: a successful run writes exactly the upserted ledger. -/
theorem mainRun_success {file0 : Option (List Row)} {today : String}
    {fo : Option (List Char)} {fl : Option (List Char × List Char)}
    {rows' : List Row} {out : Nat × Nat}
    (h : mainRun file0 today fo fl = (some rows', some out)) :
    rows' = runLedger (init_csv file0) today out.1 out.2 := by
  cases fo with
  | none => simp [mainRun] at h
  | some textO =>
    cases ho : fetch_oikotie_count textO with
    | none => simp [mainRun, ho] at h
    | some o =>
      cases fl with
      | none => simp [mainRun, ho] at h
      | some tl =>
        cases hl : fetch_lumo_count tl.1 tl.2 with
        | none => simp [mainRun, ho, hl] at h
        | some l =>
          simp only [mainRun, ho, hl] at h
          obtain ⟨hrows, hout⟩ := Prod.mk.injEq .. ▸ h
          simp only [Option.some.injEq] at hrows hout
          rw [← hrows, ← hout]

/-- C5: upsert-by-date.  On a successful run for date D: if the ledger's last
data row is non-empty and dated D it is overwritten in place, otherwise the
new row [D, oikotie, lumo] is appended; and running the full cycle twice on
the same date, starting from a ledger (non-empty, e.g. initialised with its
header) having no data row dated D, leaves exactly one data row dated D. -/
theorem C5_upsert_by_date :
    (∀ (rows : List Row) (today : String) (o l : Nat) (last : Row),
       read_last_row rows = some last → last ≠ [] → last.head? = some today →
       runLedger rows today o l = rows.dropLast ++ [newRow today o l])
    ∧ (∀ (rows : List Row) (today : String) (o l : Nat),
       (∀ last, read_last_row rows = some last → last = [] ∨ last.head? ≠ some today) →
       runLedger rows today o l = rows ++ [newRow today o l])
    ∧ (∀ (file0 : Option (List Row)) (today : String) (fo fo2 : Option (List Char))
         (fl fl2 : Option (List Char × List Char)) (rows1 rows2 : List Row)
         (out1 out2 : Nat × Nat),
       init_csv file0 ≠ [] →
       (∀ r ∈ (init_csv file0).drop 1, r.head? ≠ some today) →
       mainRun file0 today fo fl = (some rows1, some out1) →
       mainRun (some rows1) today fo2 fl2 = (some rows2, some out2) →
       List.countP (fun r => decide (r.head? = some today)) (rows2.drop 1) = 1) := by
  refine ⟨?_, ?_, ?_⟩
  · intro rows today o l last h1 h2 h3
    exact runLedger_overwrite o l h1 h2 h3
  · intro rows today o l h
    exact runLedger_append o l h
  · intro file0 today fo fo2 fl fl2 rows1 rows2 out1 out2 hne hfresh hrun1 hrun2
    have h1 := mainRun_success hrun1
    have h2 := mainRun_success hrun2
    obtain ⟨r0, t0, hr0⟩ := List.exists_cons_of_ne_nil hne
    have hrows1 : rows1 = init_csv file0 ++ [newRow today out1.1 out1.2] := by
      rw [h1]
      apply runLedger_append
      intro last hlast
      right
      exact hfresh last (mem_of_getLast? hlast)
    have hlast1 : read_last_row rows1 = some (newRow today out1.1 out1.2) := by
      rw [hrows1, hr0]
      unfold read_last_row
      simp only [List.cons_append, List.drop_succ_cons, List.drop_zero]
      exact List.getLast?_concat _
    have hrows2 : rows2 = init_csv file0 ++ [newRow today out2.1 out2.2] := by
      rw [h2]
      show runLedger rows1 today out2.1 out2.2 = init_csv file0 ++ [newRow today out2.1 out2.2]
      rw [runLedger_overwrite out2.1 out2.2 hlast1 (by simp [newRow]) (by simp [newRow])]
      rw [hrows1, List.dropLast_concat]
    rw [hrows2, hr0]
    simp only [List.cons_append, List.drop_succ_cons, List.drop_zero]
    rw [List.countP_append]
    have hz : List.countP (fun r => decide (r.head? = some today)) t0 = 0 := by
      rw [List.countP_eq_zero]
      intro r hr
      simp only [decide_eq_true_eq]
      exact hfresh r (by rw [hr0]; simpa using hr)
    rw [hz]
    simp [newRow]

theorem C5_upsert_by_date_witness :
    runLedger [headerRow, ["2025-10-12", "1", "2"]] "2025-10-12" 600 1246
      = [headerRow, ["2025-10-12", "1", "2"]].dropLast ++ [newRow "2025-10-12" 600 1246]
    ∧ runLedger [headerRow, ["2025-01-01", "1", "2"]] "2025-10-12" 600 1246
      = [headerRow, ["2025-01-01", "1", "2"]] ++ [newRow "2025-10-12" 600 1246]
    ∧ List.countP (fun r => decide (r.head? = some "2025-10-12"))
        (([headerRow, ["2025-10-12", "600", "1246"]] : List Row).drop 1) = 1 := by
  refine ⟨?_, ?_, ?_⟩
  · exact C5_upsert_by_date.1 _ _ 600 1246 ["2025-10-12", "1", "2"] (by decide) (by decide) (by decide)
  · exact C5_upsert_by_date.2.1 _ _ 600 1246 (by decide)
  · exact C5_upsert_by_date.2.2 (some [headerRow]) "2025-10-12"
      (some ("600 asuntoa".toList)) (some ("600 asuntoa".toList))
      (some ("1 246 asuntoa".toList, [])) (some ("1 246 asuntoa".toList, []))
      [headerRow, ["2025-10-12", "600", "1246"]] [headerRow, ["2025-10-12", "600", "1246"]]
      (600, 1246) (600, 1246) (by decide) (by decide) (by decide) (by decide)

/-- Helper: rendering distributes over appending a final row. -/
theorem renderCSV_concat (rows : List Row) (r : Row) :
    renderCSV (rows ++ [r]) = renderCSV rows ++ renderLine r := by
  unfold renderCSV
  rw [List.flatMap_append]
  simp

/-- C10: frame property of the in-place upsert.  When the last data row is
dated today (and non-empty), the rewritten file is the old file with exactly
the last row replaced: both the old and new byte contents are the bytes of
the header and earlier data rows followed by one final line, so that shared
prefix is preserved byte-for-byte in its original order. -/
theorem C10_overwrite_frame (rows : List Row) (today : String) (o l : Nat) (last : Row)
    (h1 : read_last_row rows = some last) (h2 : last ≠ []) (h3 : last.head? = some today) :
    runLedger rows today o l = rows.dropLast ++ [newRow today o l]
    ∧ rows = rows.dropLast ++ [last]
    ∧ renderCSV (runLedger rows today o l) = renderCSV rows.dropLast ++ renderLine (newRow today o l)
    ∧ renderCSV rows = renderCSV rows.dropLast ++ renderLine last := by
  have hov := runLedger_overwrite o l h1 h2 h3
  have hlast : rows.getLast? = some last := by
    unfold read_last_row at h1
    cases rows with
    | nil => cases h1
    | cons r rs =>
      simp only [List.drop_succ_cons, List.drop_zero] at h1
      cases rs with
      | nil => cases h1
      | cons b t => rw [List.getLast?_cons_cons]; exact h1
  have hsplit : rows.dropLast ++ [last] = rows :=
    List.dropLast_append_getLast? last (Option.mem_def.mpr hlast)
  refine ⟨hov, hsplit.symm, ?_, ?_⟩
  · rw [hov, renderCSV_concat]
  · conv_lhs => rw [← hsplit]
    rw [renderCSV_concat]

theorem C10_overwrite_frame_witness :
    runLedger [headerRow, ["2025-01-01", "1", "2"], ["2025-10-12", "3", "4"]] "2025-10-12" 600 1246
      = [headerRow, ["2025-01-01", "1", "2"], ["2025-10-12", "3", "4"]].dropLast
          ++ [newRow "2025-10-12" 600 1246]
    ∧ ([headerRow, ["2025-01-01", "1", "2"], ["2025-10-12", "3", "4"]] : List Row)
      = [headerRow, ["2025-01-01", "1", "2"], ["2025-10-12", "3", "4"]].dropLast
          ++ [["2025-10-12", "3", "4"]]
    ∧ renderCSV (runLedger [headerRow, ["2025-01-01", "1", "2"], ["2025-10-12", "3", "4"]]
          "2025-10-12" 600 1246)
      = renderCSV [headerRow, ["2025-01-01", "1", "2"], ["2025-10-12", "3", "4"]].dropLast
          ++ renderLine (newRow "2025-10-12" 600 1246)
    ∧ renderCSV [headerRow, ["2025-01-01", "1", "2"], ["2025-10-12", "3", "4"]]
      = renderCSV [headerRow, ["2025-01-01", "1", "2"], ["2025-10-12", "3", "4"]].dropLast
          ++ renderLine ["2025-10-12", "3", "4"] :=
  C10_overwrite_frame [headerRow, ["2025-01-01", "1", "2"], ["2025-10-12", "3", "4"]]
    "2025-10-12" 600 1246 ["2025-10-12", "3", "4"] (by decide) (by decide) (by decide)

/-- C7: the fetch retry contract with `tries = 3` (the default used by every
caller).  For every transport behaviour and URL: at most 3 attempts are made;
the fixed-delay sleeps sit strictly between consecutive attempts (one fewer
sleep than attempts, and the trace ends with an attempt, never a sleep); if
all attempts fail the result is the error whose message contains the URL and
the last underlying cause; and the first successful attempt returns its page
immediately, with no further attempts. -/
theorem C7_fetch_retry (T : Nat → Except String String) (url : List Char) :
    countAtt (fetch_soup T url).1 ≤ 3
    ∧ countSleep (fetch_soup T url).1 + 1 = countAtt (fetch_soup T url).1
    ∧ (∃ k, (fetch_soup T url).1.getLast? = some (FetchEv.att k))
    ∧ (∀ e0 e1 e2, T 0 = Except.error e0 → T 1 = Except.error e1 → T 2 = Except.error e2 →
        (fetch_soup T url).2 = Except.error (mkFetchErr url (some e2))
        ∧ (∃ s t, s ++ url ++ t = mkFetchErr url (some e2))
        ∧ (∃ s t, s ++ e2.toList ++ t = mkFetchErr url (some e2)))
    ∧ (∀ p, T 0 = Except.ok p →
        (fetch_soup T url).2 = Except.ok p ∧ countAtt (fetch_soup T url).1 = 1)
    ∧ (∀ e0 p, T 0 = Except.error e0 → T 1 = Except.ok p →
        (fetch_soup T url).2 = Except.ok p ∧ countAtt (fetch_soup T url).1 = 2)
    ∧ (∀ e0 e1 p, T 0 = Except.error e0 → T 1 = Except.error e1 → T 2 = Except.ok p →
        (fetch_soup T url).2 = Except.ok p ∧ countAtt (fetch_soup T url).1 = 3) := by
  cases h0 : T 0 with
  | ok p0 =>
    have hres : fetch_soup T url = ([FetchEv.att 0], Except.ok p0) := by
      show fetchLoop T url [0, 1, 2] none = _
      simp [fetchLoop, h0]
    rw [hres]
    refine ⟨by norm_num [countAtt], by norm_num [countAtt, countSleep], ⟨0, rfl⟩, ?_, ?_, ?_, ?_⟩
    · intro e0 e1 e2 hh _ _; simp at hh
    · intro p hp; injection hp with hpp; subst hpp; exact ⟨rfl, rfl⟩
    · intro e0 p hp _; simp at hp
    · intro e0 e1 p hp _ _; simp at hp
  | error e0 =>
    cases h1 : T 1 with
    | ok p1 =>
      have hres : fetch_soup T url
          = ([FetchEv.att 0, FetchEv.sleepEv, FetchEv.att 1], Except.ok p1) := by
        show fetchLoop T url [0, 1, 2] none = _
        simp [fetchLoop, h0, h1]
      rw [hres]
      refine ⟨by norm_num [countAtt], by norm_num [countAtt, countSleep], ⟨1, rfl⟩,
        ?_, ?_, ?_, ?_⟩
      · intro f0 f1 f2 _ hh _; simp at hh
      · intro p hp; simp at hp
      · intro f0 p _ hp; injection hp with hpp; subst hpp; exact ⟨rfl, rfl⟩
      · intro f0 f1 p _ hp _; simp at hp
    | error e1 =>
      cases h2 : T 2 with
      | ok p2 =>
        have hres : fetch_soup T url
            = ([FetchEv.att 0, FetchEv.sleepEv, FetchEv.att 1, FetchEv.sleepEv, FetchEv.att 2],
               Except.ok p2) := by
          show fetchLoop T url [0, 1, 2] none = _
          simp [fetchLoop, h0, h1, h2]
        rw [hres]
        refine ⟨by norm_num [countAtt], by norm_num [countAtt, countSleep], ⟨2, rfl⟩,
          ?_, ?_, ?_, ?_⟩
        · intro f0 f1 f2 _ _ hh; simp at hh
        · intro p hp; simp at hp
        · intro f0 p _ hp; simp at hp
        · intro f0 f1 p _ _ hp; injection hp with hpp; subst hpp; exact ⟨rfl, rfl⟩
      | error e2 =>
        have hres : fetch_soup T url
            = ([FetchEv.att 0, FetchEv.sleepEv, FetchEv.att 1, FetchEv.sleepEv, FetchEv.att 2],
               Except.error (mkFetchErr url (some e2))) := by
          show fetchLoop T url [0, 1, 2] none = _
          simp [fetchLoop, h0, h1, h2]
        rw [hres]
        refine ⟨by norm_num [countAtt], by norm_num [countAtt, countSleep], ⟨2, rfl⟩,
          ?_, ?_, ?_, ?_⟩
        · intro f0 f1 f2 _ _ hh
          injection hh with hee
          subst hee
          refine ⟨rfl, ?_, ?_⟩
          · refine ⟨"Sivun haku epäonnistui: ".toList,
              " (".toList ++ e2.toList ++ ")".toList, ?_⟩
            simp [mkFetchErr, List.append_assoc]
          · refine ⟨"Sivun haku epäonnistui: ".toList ++ url ++ " (".toList, ")".toList, ?_⟩
            simp [mkFetchErr, List.append_assoc]
        · intro p hp; simp at hp
        · intro f0 p _ hp; simp at hp
        · intro f0 f1 p _ _ hp; simp at hp

theorem C7_fetch_retry_witness :
    ((fetch_soup (fun _ => Except.error "boom") ("u".toList)).2
        = Except.error (mkFetchErr ("u".toList) (some "boom"))
      ∧ (∃ s t, s ++ "u".toList ++ t = mkFetchErr ("u".toList) (some "boom"))
      ∧ (∃ s t, s ++ "boom".toList ++ t = mkFetchErr ("u".toList) (some "boom")))
    ∧ ((fetch_soup (fun i => if i < 1 then Except.error "boom" else Except.ok "page")
          ("u".toList)).2 = Except.ok "page"
      ∧ countAtt (fetch_soup (fun i => if i < 1 then Except.error "boom" else Except.ok "page")
          ("u".toList)).1 = 2) :=
  ⟨(C7_fetch_retry (fun _ => Except.error "boom") ("u".toList)).2.2.2.1
      "boom" "boom" "boom" rfl rfl rfl,
   (C7_fetch_retry (fun i => if i < 1 then Except.error "boom" else Except.ok "page")
      ("u".toList)).2.2.2.2.2.1 "boom" "page" rfl rfl⟩

/-! Lemmas for claim C6: the behaviour of the scans on a text that is exactly
one well-formed grouped integer. -/

/-- Texts consisting only of digits and separator characters. -/
def digitOrSep (cs : List Char) : Prop := ∀ c ∈ cs, isDigitCh c = true ∨ isSepCh c = true

theorem digitRun_append_digits (ds rest : List Char) (h : ∀ c ∈ ds, isDigitCh c = true) :
    digitRun (ds ++ rest) = ds.length + digitRun rest := by
  induction ds with
  | nil => simp [digitRun]
  | cons d ds ih =>
    have hd := h d (List.mem_cons_self d ds)
    rw [List.cons_append]
    show (if isDigitCh d then digitRun (ds ++ rest) + 1 else 0) = (d :: ds).length + digitRun rest
    rw [if_pos hd, ih (fun c hc => h c (List.mem_cons_of_mem d hc)), List.length_cons]
    omega

theorem digitRun_not_digit (c : Char) (rest : List Char) (h : isDigitCh c = false) :
    digitRun (c :: rest) = 0 := by
  simp [digitRun, h]

theorem isSepCh_not_digit {c : Char} (h : isSepCh c = true) : isDigitCh c = false := by
  simp only [isSepCh, Bool.or_eq_true, decide_eq_true_eq] at h
  simp only [isDigitCh, Bool.and_eq_false_iff, decide_eq_false_iff_not, not_le]
  omega

theorem length_renderGroups (gs : List (Char × List Char)) (h : ∀ p ∈ gs, wfGroup p) :
    (renderGroups gs).length = 4 * gs.length := by
  induction gs with
  | nil => rfl
  | cons p gs ih =>
    have hp := h p (List.mem_cons_self p gs)
    have ihr := ih (fun q hq => h q (List.mem_cons_of_mem p hq))
    simp only [renderGroups, List.flatMap_cons, List.length_append, List.length_cons]
    simp only [renderGroups] at ihr
    rw [ihr, hp.2.1]
    ring

theorem plusLensAux_renderGroups (gs : List (Char × List Char)) :
    ∀ (fuel : Nat), (∀ p ∈ gs, wfGroup p) → gs.length ≤ fuel →
    plusLensAux fuel (renderGroups gs)
      = (List.range gs.length).map (fun i => 4 * (gs.length - i)) := by
  induction gs with
  | nil =>
    intro fuel _ _
    cases fuel with
    | zero => rfl
    | succ f => rfl
  | cons p gs ih =>
    intro fuel h hf
    cases fuel with
    | zero => exact absurd hf (by simp)
    | succ f =>
      have hp := h p (List.mem_cons_self p gs)
      have hR : renderGroups (p :: gs) = p.1 :: (p.2 ++ renderGroups gs) := by
        simp [renderGroups]
      have hdr : 3 ≤ digitRun (p.2 ++ renderGroups gs) := by
        rw [digitRun_append_digits p.2 _ hp.2.2, hp.2.1]
        omega
      have hgl : groupLen (p.1 :: (p.2 ++ renderGroups gs)) = some 4 := by
        simp only [groupLen, List.drop_succ_cons, List.drop_zero]
        rw [if_pos hp.1, if_pos hdr]
      have hdrop : (p.1 :: (p.2 ++ renderGroups gs)).drop 4 = renderGroups gs := by
        rw [List.drop_succ_cons, show (3 : Nat) = p.2.length from hp.2.1.symm, List.drop_left]
      rw [hR]
      simp only [plusLensAux, hgl]
      rw [hdrop, ih f (fun q hq => h q (List.mem_cons_of_mem p hq)) (by simpa using hf)]
      rw [List.length_cons, List.range_succ, List.map_append, List.map_map]
      congr 1
      · apply List.map_congr_left
        intro i hi
        have hi2 : i < gs.length := List.mem_range.mp hi
        simp only [Function.comp_apply]
        omega
      · simp

theorem groupedLens_render (lead : List Char) (gs : List (Char × List Char))
    (h1 : 1 ≤ lead.length) (h2 : lead.length ≤ 3) (h3 : ∀ c ∈ lead, isDigitCh c = true)
    (h4 : gs ≠ []) (h5 : ∀ p ∈ gs, wfGroup p) :
    (groupedLens (renderGrouped lead gs)).head? = some (renderGrouped lead gs).length := by
  obtain ⟨p, gs', hgs⟩ := List.exists_cons_of_ne_nil h4
  subst hgs
  have hp := h5 p (List.mem_cons_self p gs')
  have hRcons : renderGroups (p :: gs') = p.1 :: (p.2 ++ renderGroups gs') := by
    simp [renderGroups]
  have hd0 : digitRun (renderGrouped lead (p :: gs')) = lead.length := by
    rw [renderGrouped, hRcons, digitRun_append_digits lead _ h3,
      digitRun_not_digit p.1 _ (isSepCh_not_digit hp.1)]
    omega
  obtain ⟨m, hm⟩ : ∃ m, lead.length = m + 1 := ⟨lead.length - 1, by omega⟩
  have hll : leadLens (renderGrouped lead (p :: gs'))
      = lead.length :: List.map (fun i => lead.length - i) (List.map Nat.succ (List.range m)) := by
    unfold leadLens
    rw [hd0, Nat.min_eq_left h2]
    conv_lhs => rw [hm, List.range_succ_eq_map]
    rw [List.map_cons, Nat.sub_zero, ← hm]
  have hdropL : (renderGrouped lead (p :: gs')).drop lead.length = renderGroups (p :: gs') := by
    rw [renderGrouped, List.drop_left]
  have hplus : plusLens (renderGroups (p :: gs'))
      = (List.range (gs'.length + 1)).map (fun i => 4 * ((gs'.length + 1) - i)) := by
    unfold plusLens
    have hlen4 : (renderGroups (p :: gs')).length = 4 * (gs'.length + 1) := by
      rw [length_renderGroups _ h5]; simp
    have := plusLensAux_renderGroups (p :: gs') ((renderGroups (p :: gs')).length) h5
      (by rw [hlen4, List.length_cons]; omega)
    simpa using this
  have hlen : (renderGrouped lead (p :: gs')).length = lead.length + 4 * (gs'.length + 1) := by
    rw [renderGrouped, List.length_append, length_renderGroups _ h5]
    simp
  unfold groupedLens
  rw [hll, List.flatMap_cons, hdropL, hplus]
  rw [List.range_succ_eq_map, List.map_cons, List.map_cons, List.cons_append, List.head?_cons]
  simp only [Option.some.injEq]
  omega

theorem numberLens_render (lead : List Char) (gs : List (Char × List Char))
    (h1 : 1 ≤ lead.length) (h2 : lead.length ≤ 3) (h3 : ∀ c ∈ lead, isDigitCh c = true)
    (h4 : gs ≠ []) (h5 : ∀ p ∈ gs, wfGroup p) :
    ∃ t, numberLens (renderGrouped lead gs) = (renderGrouped lead gs).length :: t := by
  have hh := groupedLens_render lead gs h1 h2 h3 h4 h5
  unfold numberLens
  cases hg : groupedLens (renderGrouped lead gs) with
  | nil => rw [hg] at hh; cases hh
  | cons x xs =>
    rw [hg] at hh
    simp only [List.head?_cons, Option.some.injEq] at hh
    subst hh
    exact ⟨xs ++ plainLens (renderGrouped lead gs), by rw [List.cons_append]⟩

/-- The first character of every keyword is an ASCII lowercase letter. -/
def kwHeadLower : List Char → Bool
  | [] => false
  | k :: _ => 97 ≤ k.toNat && k.toNat ≤ 122

theorem toLower_eq_self {c : Char} (h : c.toNat < 65 ∨ 90 < c.toNat) : c.toLower = c := by
  show (if c.toNat ≥ 65 ∧ c.toNat ≤ 90 then Char.ofNat (c.toNat + 32) else c) = c
  rw [if_neg (by omega)]

theorem charMatchCI_false {k c : Char} (hk1 : 97 ≤ k.toNat) (hk2 : k.toNat ≤ 122)
    (hc : isDigitCh c = true ∨ isSepCh c = true) : charMatchCI k c = false := by
  have hcn : c.toNat = 32 ∨ c.toNat = 160 ∨ (48 ≤ c.toNat ∧ c.toNat ≤ 57) := by
    rcases hc with h | h
    · simp only [isDigitCh, Bool.and_eq_true, decide_eq_true_eq] at h
      exact Or.inr (Or.inr h)
    · simp only [isSepCh, Bool.or_eq_true, decide_eq_true_eq] at h
      rcases h with h | h
      · exact Or.inl h
      · exact Or.inr (Or.inl h)
  have hne : k ≠ c := by
    intro he
    subst he
    omega
  have hkl : k.toLower = k := toLower_eq_self (Or.inr (by omega))
  have hcl : c.toLower = c := toLower_eq_self (by omega)
  simp only [charMatchCI, hkl, hcl, Bool.or_eq_false_iff, beq_eq_false_iff_ne, ne_eq]
  exact ⟨hne, hne⟩

theorem keywordAt_digitOrSep {cs : List Char} (h : digitOrSep cs) : keywordAt cs = none := by
  cases cs with
  | nil => decide
  | cons c cs' =>
    have hc := h c (List.mem_cons_self c cs')
    unfold keywordAt
    rw [List.findSome?_eq_none_iff]
    intro kw hkw
    have hhl : kwHeadLower kw = true := by
      have hall : ∀ x ∈ COUNT_KEYWORDS, kwHeadLower x = true := by decide
      exact hall kw hkw
    cases kw with
    | nil => simp [kwHeadLower] at hhl
    | cons k ks =>
      simp only [kwHeadLower, Bool.and_eq_true, decide_eq_true_eq] at hhl
      have hmk : matchKw (k :: ks) (c :: cs') = false := by
        simp [matchKw, charMatchCI_false hhl.1 hhl.2 hc]
      simp [hmk]

theorem kwMatchAt_digitOrSep {cs : List Char} (h : digitOrSep cs) : kwMatchAt cs = none := by
  unfold kwMatchAt
  rw [List.findSome?_eq_none_iff]
  intro n _
  have hinner : (wsLens (cs.drop n)).findSome?
      (fun w => (keywordAt ((cs.drop n).drop w)).map (fun k => n + w + k)) = none := by
    rw [List.findSome?_eq_none_iff]
    intro w _
    have : keywordAt ((cs.drop n).drop w) = none := by
      apply keywordAt_digitOrSep
      intro c hc
      exact h c (List.mem_of_mem_drop (List.mem_of_mem_drop hc))
    rw [this]
    rfl
  rw [hinner]
  rfl

theorem slashMatchAt_digitOrSep {cs : List Char} (h : digitOrSep cs) : slashMatchAt cs = none := by
  cases cs with
  | nil => rfl
  | cons c rest =>
    have hc := h c (List.mem_cons_self c rest)
    have hne : c ≠ '/' := by
      intro he
      subst he
      rcases hc with h1 | h1 <;> exact absurd h1 (by decide)
    simp [slashMatchAt, hne]

theorem kwScanAux_digitOrSep (fuel : Nat) :
    ∀ cs : List Char, digitOrSep cs → kwScanAux fuel cs = [] := by
  induction fuel with
  | zero => intro cs _; rfl
  | succ f ih =>
    intro cs h
    cases cs with
    | nil => rfl
    | cons c rest =>
      have hm := kwMatchAt_digitOrSep h
      simp only [kwScanAux, hm]
      exact ih rest (fun x hx => h x (List.mem_cons_of_mem c hx))

theorem slashScanAux_digitOrSep (fuel : Nat) :
    ∀ cs : List Char, digitOrSep cs → slashScanAux fuel cs = [] := by
  induction fuel with
  | zero => intro cs _; rfl
  | succ f ih =>
    intro cs h
    cases cs with
    | nil => rfl
    | cons c rest =>
      have hm := slashMatchAt_digitOrSep h
      simp only [slashScanAux, hm]
      exact ih rest (fun x hx => h x (List.mem_cons_of_mem c hx))

theorem bareScanAux_nil (fuel : Nat) : bareScanAux fuel [] = [] := by
  cases fuel <;> rfl

theorem render_digitOrSep (lead : List Char) (gs : List (Char × List Char))
    (h3 : ∀ c ∈ lead, isDigitCh c = true) (h5 : ∀ p ∈ gs, wfGroup p) :
    digitOrSep (renderGrouped lead gs) := by
  intro c hc
  rcases List.mem_append.mp hc with hm | hm
  · exact Or.inl (h3 c hm)
  · obtain ⟨p, hp, hcp⟩ := List.mem_flatMap.mp hm
    rcases List.mem_cons.mp hcp with rfl | hcp
    · exact Or.inr (h5 p hp).1
    · exact Or.inl ((h5 p hp).2.2 c hcp)

theorem clean_to_int_render (lead : List Char) (gs : List (Char × List Char))
    (h1 : 1 ≤ lead.length) (h3 : ∀ c ∈ lead, isDigitCh c = true) :
    clean_to_int (renderGrouped lead gs)
      = some (digitsToNat ((renderGrouped lead gs).filter isDigitCh)) := by
  have hlead : lead ≠ [] := by
    intro he
    rw [he] at h1
    simp at h1
  obtain ⟨d, lead', hdl⟩ := List.exists_cons_of_ne_nil hlead
  subst hdl
  have hfil : (renderGrouped (d :: lead') gs).filter isDigitCh
      = d :: ((lead' ++ renderGroups gs).filter isDigitCh) := by
    rw [renderGrouped, List.cons_append,
      List.filter_cons_of_pos (h3 d (List.mem_cons_self d lead'))]
  unfold clean_to_int
  rw [hfil]
  simp

theorem bareScan_render (lead : List Char) (gs : List (Char × List Char))
    (h1 : 1 ≤ lead.length) (h2 : lead.length ≤ 3) (h3 : ∀ c ∈ lead, isDigitCh c = true)
    (h4 : gs ≠ []) (h5 : ∀ p ∈ gs, wfGroup p) :
    bareScan (renderGrouped lead gs)
      = [digitsToNat ((renderGrouped lead gs).filter isDigitCh)] := by
  obtain ⟨t, hnum⟩ := numberLens_render lead gs h1 h2 h3 h4 h5
  have hlead : lead ≠ [] := by
    intro he
    rw [he] at h1
    simp at h1
  obtain ⟨d, lead', hdl⟩ := List.exists_cons_of_ne_nil hlead
  have hcons : renderGrouped lead gs = d :: (lead' ++ renderGroups gs) := by
    rw [renderGrouped, hdl, List.cons_append]
  rw [bareScan]
  conv_lhs => rw [hcons]
  rw [List.length_cons]
  simp only [bareScanAux]
  rw [← hcons, hnum]
  simp only [List.head?_cons]
  have htake : (renderGrouped lead gs).take (renderGrouped lead gs).length
      = renderGrouped lead gs := List.take_length _
  have hdrop : (renderGrouped lead gs).drop (renderGrouped lead gs).length
      = [] := List.drop_length _
  rw [htake, hdrop, bareScanAux_nil, clean_to_int_render lead gs h1 h3]
  rfl

/-- C6: tokenizer normalization.  For every text that is exactly a
well-formed grouped integer (1 to 3 leading digits, then one or more groups
of exactly 3 digits, each preceded by an ordinary or a non-breaking space,
e.g. "12 345" or "12 345" with U+00A0), the candidate scan emits exactly one
value: the one obtained by stripping all non-digit characters and parsing
base 10 — the grouped regex consumes the whole text and `_clean_to_int`
normalizes it.  Moreover a match that normalizes to an empty digit string
yields `None` and is discarded by the scans, never emitted as zero. -/
theorem C6_tokenizer_grouped (lead : List Char) (gs : List (Char × List Char))
    (h1 : 1 ≤ lead.length) (h2 : lead.length ≤ 3) (h3 : ∀ c ∈ lead, isDigitCh c = true)
    (h4 : gs ≠ []) (h5 : ∀ p ∈ gs, wfGroup p) :
    find_candidate_counts (renderGrouped lead gs)
      = [digitsToNat ((renderGrouped lead gs).filter isDigitCh)]
    ∧ clean_to_int (renderGrouped lead gs)
      = some (digitsToNat ((renderGrouped lead gs).filter isDigitCh))
    ∧ ∀ s : List Char, s.filter isDigitCh = [] → clean_to_int s = none := by
  have hds := render_digitOrSep lead gs h3 h5
  refine ⟨?_, clean_to_int_render lead gs h1 h3, ?_⟩
  · unfold find_candidate_counts
    rw [show kwScan (renderGrouped lead gs) = [] from kwScanAux_digitOrSep _ _ hds,
      show slashScan (renderGrouped lead gs) = [] from slashScanAux_digitOrSep _ _ hds,
      bareScan_render lead gs h1 h2 h3 h4 h5]
    rfl
  · intro s hs
    unfold clean_to_int
    rw [hs]
    rfl

theorem C6_tokenizer_grouped_witness :
    find_candidate_counts ("12 345".toList) = [12345]
    ∧ find_candidate_counts ("12 345".toList) = [12345] := by
  have hsp := C6_tokenizer_grouped ['1', '2'] [(' ', ['3', '4', '5'])]
    (by decide) (by decide) (by decide) (by decide)
    (by intro p hp; simp at hp; subst hp; exact ⟨by decide, by decide, by decide⟩)
  have hnb := C6_tokenizer_grouped ['1', '2'] [(' ', ['3', '4', '5'])]
    (by decide) (by decide) (by decide) (by decide)
    (by intro p hp; simp at hp; subst hp; exact ⟨by decide, by decide, by decide⟩)
  constructor
  · have h := hsp.1
    rw [show renderGrouped ['1', '2'] [(' ', ['3', '4', '5'])] = "12 345".toList by decide] at h
    exact h.trans (by decide)
  · have h := hnb.1
    rw [show renderGrouped ['1', '2'] [(' ', ['3', '4', '5'])] = "12 345".toList
      by decide] at h
    exact h.trans (by decide)
